import Mathlib

/-!
Verification of the content ingestion and rendering pipeline of the blog
repository (markdown posts, frontmatter metadata, sorted index, category
filtering, archive grouping, markdown component overrides).

The page components under `src/app` and `src/components` are embedded
directly from the source.  The query layer `lib/posts` (scanner,
frontmatter parser, index builder) is not part of the sources; its
operations are modelled from the specification (sections 4.2 to 4.4),
which documents the frontmatter format, the required fields and defaults,
the canonical descending stable order, and the lookup contracts.
All definitions are executable and reduce in the kernel, so concrete
witnesses are checked by `decide` or `rfl`.
-/

namespace Blog

/-! ## Character-level text utilities

The frontmatter format is line oriented.  These helpers are structural
recursions over `List Char` so that every parse of a concrete unit
evaluates inside the kernel. -/

/-- Split a character list at every occurrence of the separator. -/
def splitSepAux (sep : Char) : List Char → List Char → List (List Char)
  | [], cur => [cur.reverse]
  | c :: cs, cur =>
    if c = sep then cur.reverse :: splitSepAux sep cs []
    else splitSepAux sep cs (c :: cur)

/-- Split a character list on a separator character. -/
def splitSep (sep : Char) (l : List Char) : List (List Char) :=
  splitSepAux sep l []

/-- Drop leading whitespace characters. -/
def dropLeadingWs : List Char → List Char
  | [] => []
  | c :: cs => if c.isWhitespace then dropLeadingWs cs else c :: cs

/-- Trim whitespace from both ends of a character list. -/
def trimChars (l : List Char) : List Char :=
  ((dropLeadingWs (dropLeadingWs l).reverse)).reverse

/-- Join lines with a newline character, the inverse of line splitting. -/
def joinLines : List (List Char) → List Char
  | [] => []
  | [l] => l
  | l :: ls => l ++ '\n' :: joinLines ls

/-- Split a line at its first colon: key part and value part. -/
def splitAtColon : List Char → Option (List Char × List Char)
  | [] => none
  | c :: cs =>
    if c = ':' then some ([], cs)
    else
      match splitAtColon cs with
      | none => none
      | some (k, v) => some (c :: k, v)

/-- Remove one layer of surrounding double quotes, if present. -/
def stripQuotes (l : List Char) : List Char :=
  if l.length ≥ 2 ∧ l.head? = some '"' ∧ l.getLast? = some '"' then
    (l.drop 1).dropLast
  else l

/-- Accumulator loop reading decimal digits; fails on a non-digit. -/
def digitsToNatAux (acc : Nat) : List Char → Option Nat
  | [] => some acc
  | c :: cs =>
    if c.isDigit then digitsToNatAux (acc * 10 + (c.toNat - 48)) cs
    else none

/-- Read a non-empty all-digit character list as a natural number. -/
def digitsToNat : List Char → Option Nat
  | [] => none
  | c :: cs => digitsToNatAux 0 (c :: cs)

/-! ## Data model

`Post` mirrors the `Post` interface of `lib/posts` as used by every page
component: slug, title, ISO date string, read-time display string,
category, and the markdown body (`content`). -/

structure Post where
  slug : String
  title : String
  date : String
  readTime : String
  category : String
  content : String
deriving DecidableEq, Repr

/-! ## Frontmatter parser

Modelled from the spec (section 4.2): a content unit must begin with a
delimited metadata block between two `---` marker lines (leading
whitespace trimmed); the block holds `key: "value"` pairs; `title` and a
parseable ISO-8601 `date` are mandatory; `readTime` and `category` are
optional with defaults; the body is the text after the closing marker,
trimmed of surrounding whitespace. -/

/-- The frontmatter delimiter line. -/
def marker : List Char := ['-', '-', '-']

/-- Parse one metadata line `key: "value"` into a key-value pair. -/
def parseMetaLine (line : List Char) : Option (String × String) :=
  match splitAtColon line with
  | none => none
  | some (k, v) => some (String.mk (trimChars k), String.mk (stripQuotes (trimChars v)))

/-- Split the lines after the opening marker at the closing marker. -/
def splitAtMarker : List (List Char) → Option (List (List Char) × List (List Char))
  | [] => none
  | l :: ls =>
    if l = marker then some ([], ls)
    else
      match splitAtMarker ls with
      | none => none
      | some (meta, body) => some (l :: meta, body)

/-- Modelled from the spec: parse an ISO-8601 `YYYY-MM-DD` date into a
sortable instant (the number `y * 10000 + m * 100 + d`, strictly monotone
in the calendar date); any other shape is unparseable. -/
def parseDate (s : String) : Option Nat :=
  match splitSep '-' s.data with
  | [y, m, d] =>
    if y.length = 4 ∧ m.length = 2 ∧ d.length = 2 then
      match digitsToNat y, digitsToNat m, digitsToNat d with
      | some yn, some mn, some dn => some (yn * 10000 + mn * 100 + dn)
      | _, _, _ => none
    else none
  | _ => none

/-- Modelled from the spec: split a raw content unit into the metadata
key-value pairs and the trimmed markdown body, or fail when the unit does
not begin with a delimited metadata block. -/
def splitFrontmatter (raw : String) : Option (List (String × String) × String) :=
  match splitSep '\n' (dropLeadingWs raw.data) with
  | [] => none
  | first :: rest =>
    if first = marker then
      match splitAtMarker rest with
      | none => none
      | some (metaLines, bodyLines) =>
        some (metaLines.filterMap parseMetaLine, String.mk (trimChars (joinLines bodyLines)))
    else none

/-- The metadata block of a raw unit; empty when the unit is malformed. -/
def metaOf (raw : String) : List (String × String) :=
  match splitFrontmatter raw with
  | none => []
  | some (meta, _) => meta

/-- Modelled from the spec: validate the metadata fields of one unit.
Missing `title`, empty `title`, missing `date` or an unparseable `date`
is a hard failure for that unit; `readTime` and `category` receive the
documented defaults. -/
def parseFields (meta : List (String × String)) (slug body : String) : Option Post :=
  match meta.lookup "title", meta.lookup "date" with
  | some title, some date =>
    if title = "" then none
    else
      match parseDate date with
      | none => none
      | some _ =>
        some { slug := slug, title := title, date := date,
               readTime := (meta.lookup "readTime").getD "reading time unknown",
               category := (meta.lookup "category").getD "Uncategorized",
               content := body }
  | _, _ => none

/-- Modelled from the spec: parse one content unit into a `Post`, or
fail for this unit alone. -/
def parseUnit (slug raw : String) : Option Post :=
  match splitFrontmatter raw with
  | none => none
  | some (meta, body) => parseFields meta slug body

/-- The successfully parsed posts in discovery order: a content unit is a
pair of slug (from the filename) and raw text. -/
def parsedPosts (units : List (String × String)) : List Post :=
  units.filterMap (fun u => parseUnit u.1 u.2)

/-! ## Stable descending sort

Modelled from the spec (section 4.3): primary key date descending,
secondary key stable input order.  Insertion sort with a strict
comparison is stable: an element is placed before the first element
whose key is not larger, so equal keys keep input order. -/

variable {α : Type}

/-- Insert one element into a descending-sorted list, before the first
element whose key is not larger. -/
def insertDescBy (key : α → Nat) (x : α) : List α → List α
  | [] => [x]
  | y :: ys =>
    if key y > key x then y :: insertDescBy key x ys
    else x :: y :: ys

/-- Stable insertion sort, descending by the given key. -/
def sortDescBy (key : α → Nat) (l : List α) : List α :=
  l.foldr (insertDescBy key) []

/-! ## Query layer

Modelled from the spec (section 4.4): the four operations of `lib/posts`
as imported by the pages (`getAllPosts`, `getAllSlugs`, `getPostBySlug`,
`getAllCategories`) plus the `getByCategory` filter. -/

/-- The sortable instant of a post date (posts in the index always have
a parseable date, so the default is never reached there). -/
def dateNum (p : Post) : Nat := (parseDate p.date).getD 0

/-- Modelled from the spec: the canonical post list, newest first,
stable for equal dates. -/
def getAllPosts (units : List (String × String)) : List Post :=
  sortDescBy dateNum (parsedPosts units)

/-- Modelled from the spec: the slugs of all indexed posts. -/
def getAllSlugs (units : List (String × String)) : List String :=
  (getAllPosts units).map (fun p => p.slug)

/-- Modelled from the spec: slug lookup returning a not-found signal
(`none`) rather than an exception when the slug is absent. -/
def getPostBySlug (units : List (String × String)) (slug : String) : Option Post :=
  (getAllPosts units).find? (fun p => p.slug == slug)

/-- Keep the first occurrence of every string, in first-appearance order. -/
def dedupFirst : List String → List String
  | [] => []
  | c :: cs => c :: (dedupFirst cs).filter (fun x => x != c)

/-- Modelled from the spec: the distinct categories in order of first
appearance across the sorted post list. -/
def getAllCategories (units : List (String × String)) : List String :=
  dedupFirst ((getAllPosts units).map (fun p => p.category))

/-- Modelled from the spec: the ordered subsequence of posts whose
category equals the given one exactly (case-sensitive). -/
def getByCategory (units : List (String × String)) (c : String) : List Post :=
  (getAllPosts units).filter (fun p => p.category == c)

/-! ## Page components embedded from the sources -/

/-- Outcome of the blog post page route. -/
inductive PageResult where
  | notFoundPage
  | postPage (p : Post)
deriving DecidableEq

/-- From `src/app/blog/page.tsx` (`BlogPost`): look the slug up and map a
missing post to the not-found page. -/
def blogPostPage (units : List (String × String)) (slug : String) : PageResult :=
  match getPostBySlug units slug with
  | none => PageResult.notFoundPage
  | some p => PageResult.postPage p

/-- From `src/app/archive/page.tsx` lines 14 to 15: the selected-category
filter with its `all` sentinel that shows every post. -/
def filteredPosts (posts : List Post) (selectedCategory : String) : List Post :=
  if selectedCategory = "all" then posts
  else posts.filter (fun p => p.category == selectedCategory)

/-- From `src/app/archive/page.tsx` line 52: the per-category count shown
on each filter button. -/
def categoryCount (posts : List Post) (c : String) : Nat :=
  (posts.filter (fun p => p.category == c)).length

/-! ## Markdown renderer overrides

The markup node tree produced by the component overrides of
`src/app/blog/page.tsx` lines 107 to 155. -/

/-- Rendered markup nodes (only the shapes the claims are about). -/
inductive Markup where
  | text (s : String)
  | code (className : Option String) (content : String)
  | preWrap (className : String) (child : Markup)
  | anchor (href : Option String) (className : String)
      (target : Option String) (rel : Option String) (label : String)
deriving DecidableEq

/-- The top-level constructor of a markup node. -/
inductive MarkupCtor where
  | textC
  | codeC
  | preC
  | anchorC
deriving DecidableEq

/-- Classify a markup node by its constructor. -/
def markupCtor : Markup → MarkupCtor
  | Markup.text _ => MarkupCtor.textC
  | Markup.code _ _ => MarkupCtor.codeC
  | Markup.preWrap _ _ => MarkupCtor.preC
  | Markup.anchor _ _ _ _ _ => MarkupCtor.anchorC

/-- The class string of the styled inline code element in the source. -/
def inlineCodeClass : String :=
  "rounded bg-muted px-1.5 py-0.5 text-[13.5px] font-mono text-accent border border-border/40"

/-- The class string of the block wrapper element in the source. -/
def preClass : String :=
  "my-6 overflow-x-auto rounded-lg border border-border/40 bg-[#0d1117] p-4 text-[14px] leading-[1.7] shadow-sm"

/-- The class string of the anchor element in the source. -/
def anchorClass : String :=
  "text-accent underline decoration-accent/30 underline-offset-2 transition-colors hover:decoration-accent"

/-- From `src/app/blog/page.tsx` lines 107 to 134: the `code` component
override.  The `inline` flag selects the styled inline element; block
code keeps the class the highlighter assigned. -/
def codeComponent (inline : Bool) (className : Option String) (children : String) : Markup :=
  if inline then Markup.code (some inlineCodeClass) children
  else Markup.code className children

/-- From `src/app/blog/page.tsx` lines 135 to 145: the `pre` component
override wrapping block code. -/
def preComponent (child : Markup) : Markup :=
  Markup.preWrap preClass child

/-- The condition the source tests on a link destination: the JS
expression `href?.startsWith("http")`, false for a missing `href`. -/
def hrefStartsWithHttp : Option String → Bool
  | none => false
  | some h => "http".data.isPrefixOf h.data

/-- From `src/app/blog/page.tsx` lines 146 to 155: the `a` component
override.  External destinations get new-context navigation attributes. -/
def aComponent (href : Option String) (label : String) : Markup :=
  Markup.anchor href anchorClass
    (if hrefStartsWithHttp href then some "_blank" else none)
    (if hrefStartsWithHttp href then some "noopener noreferrer" else none)
    label

/-- The target attribute of an anchor node. -/
def anchorTarget : Markup → Option String
  | Markup.anchor _ _ t _ _ => t
  | _ => none

/-- The rel attribute of an anchor node. -/
def anchorRel : Markup → Option String
  | Markup.anchor _ _ _ r _ => r
  | _ => none

/-- Syntactic shape of a code occurrence in a markdown body: a
single-backtick span, or a fenced block with a language tag. -/
inductive CodeSyntax where
  | inlineSpan (content : String)
  | fenced (lang : String) (content : String)
deriving DecidableEq

/-- Modelled from the spec: the markdown engine (react-markdown with
remark-gfm, an external dependency, not part of the sources) classifies a
code occurrence purely by its syntax: a span invokes the `code` override
with `inline` set, a fence invokes it unset with the language class and
wraps the result in the `pre` override. -/
def renderCode : CodeSyntax → Markup
  | CodeSyntax.inlineSpan c => codeComponent true none c
  | CodeSyntax.fenced lang c =>
    preComponent (codeComponent false (some (String.append "language-" lang)) c)

/-! ## Archive year grouping

Embedded from `src/app/archive/page.tsx` lines 17 to 27: the `reduce`
that groups the filtered posts by year, and the descending sort of the
year keys. -/

/-- The year of a post date: `new Date(d).getFullYear()` on an ISO date
is its leading four-digit year. -/
def postYear (p : Post) : Nat :=
  (digitsToNat (p.date.data.take 4)).getD 0

/-- The JS object bucket update `acc[year].push(post)` with bucket
creation on first sight: append the post to the bucket of the key if one
exists (keys are unique), else append a fresh bucket at the end. -/
def addToGroup (y : Nat) (p : Post) : List (Nat × List Post) → List (Nat × List Post)
  | [] => [(y, [p])]
  | g :: gs => if g.1 == y then (g.1, g.2 ++ [p]) :: gs else g :: addToGroup y p gs

/-- One step of the grouping `reduce`: push the post onto the list of its
year, creating the bucket on first sight. -/
def pushByYear (acc : List (Nat × List Post)) (p : Post) : List (Nat × List Post) :=
  addToGroup (postYear p) p acc

/-- The grouping of the filtered posts by year. -/
def postsByYear (posts : List Post) : List (Nat × List Post) :=
  posts.foldl pushByYear []

/-- Bucket lookup, `postsByYear[year]` in the source (empty when absent). -/
def lookupGroup : List (Nat × List Post) → Nat → List Post
  | [], _ => []
  | g :: gs, y => if g.1 == y then g.2 else lookupGroup gs y

/-- The keys of the grouping, `Object.keys(postsByYear)`. -/
def groupKeys (acc : List (Nat × List Post)) : List Nat :=
  acc.map (fun g => g.1)

/-- The year headings in display order: keys sorted numerically
descending, the comparator of line 27. -/
def yearsOf (posts : List Post) : List Nat :=
  sortDescBy (fun y => y) (groupKeys (postsByYear posts))

/-! ## Concrete demonstration data for witnesses -/

/-- A concrete well-formed content unit. -/
def demoUnitA : String × String :=
  ("alpha", "---\ntitle: \"A\"\ndate: \"2025-01-02\"\n---\nBody A")

/-- A second well-formed unit with an explicit category. -/
def demoUnitB : String × String :=
  ("beta", "---\ntitle: \"B\"\ndate: \"2024-12-31\"\ncategory: \"Sys\"\n---\nBody B")

/-- A malformed unit: its metadata block lacks the title field. -/
def demoBadRaw : String :=
  "---\ndate: \"2025-01-01\"\n---\nOops"

/-- The demonstration content store. -/
def demoUnits : List (String × String) := [demoUnitA, demoUnitB]

/-- The round-trip unit of the parser claim. -/
def c5raw : String :=
  "---\ntitle: \"T\"\ndate: \"2025-01-01\"\nreadTime: \"5 min read\"\ncategory: \"X\"\n---\n\nHello"

/-- A concrete post for the archive grouping witness. -/
def demoPostA : Post :=
  { slug := "a", title := "T", date := "2025-01-01",
    readTime := "5 min read", category := "X", content := "body" }

/-! ## Lemmas about the stable descending insertion sort -/

/-- Inserting is a permutation of consing. -/
theorem insertDescBy_perm (key : α → Nat) (x : α) (l : List α) :
    (insertDescBy key x l).Perm (x :: l) := by
  induction l with
  | nil => simp [insertDescBy]
  | cons y ys ih =>
    simp only [insertDescBy]
    by_cases h : key y > key x
    · rw [if_pos h]
      exact (ih.cons y).trans (List.Perm.swap x y ys)
    · rw [if_neg h]

/-- Inserting preserves the descending pairwise order. -/
theorem insertDescBy_pairwise (key : α → Nat) (x : α) (l : List α)
    (h : l.Pairwise (fun a b => key b ≤ key a)) :
    (insertDescBy key x l).Pairwise (fun a b => key b ≤ key a) := by
  induction l with
  | nil => simp [insertDescBy]
  | cons y ys ih =>
    rcases List.pairwise_cons.mp h with ⟨hy, hys⟩
    simp only [insertDescBy]
    by_cases hk : key y > key x
    · rw [if_pos hk]
      refine List.pairwise_cons.mpr ⟨?_, ih hys⟩
      intro z hz
      have hz2 : z ∈ x :: ys := (insertDescBy_perm key x ys).mem_iff.mp hz
      rcases List.mem_cons.mp hz2 with rfl | hzys
      · exact Nat.le_of_lt hk
      · exact hy z hzys
    · rw [if_neg hk]
      refine List.pairwise_cons.mpr ⟨?_, h⟩
      intro z hz
      rcases List.mem_cons.mp hz with rfl | hzys
      · exact Nat.le_of_not_lt hk
      · exact Nat.le_trans (hy z hzys) (Nat.le_of_not_lt hk)

/-- Stability at the insertion step: restricted to any one key value,
inserting either prepends the element (its own key) or changes nothing. -/
theorem insertDescBy_filter_key (key : α → Nat) (x : α) (l : List α) (k : Nat) :
    (insertDescBy key x l).filter (fun z => key z == k) =
      if key x = k then x :: l.filter (fun z => key z == k)
      else l.filter (fun z => key z == k) := by
  induction l with
  | nil =>
    by_cases h : key x = k
    · have hb : (key x == k) = true := beq_iff_eq.mpr h
      simp [insertDescBy, List.filter, hb, h]
    · have hb : (key x == k) = false := by simp [beq_iff_eq, h]
      simp [insertDescBy, List.filter, hb, h]
  | cons y ys ih =>
    simp only [insertDescBy]
    by_cases hk : key y > key x
    · rw [if_pos hk, List.filter_cons]
      by_cases hy : key y = k
      · have hxk : ¬ key x = k := by
          intro hxk
          exact Nat.lt_irrefl (key x) (by rw [hxk, ← hy] at hk ⊢; exact hk)
        have hyb : (key y == k) = true := beq_iff_eq.mpr hy
        rw [if_pos hyb, ih, if_neg hxk, if_neg hxk, List.filter_cons, if_pos hyb]
      · have hyb : ¬ ((key y == k) = true) := by simpa [beq_iff_eq] using hy
        rw [if_neg hyb, ih, List.filter_cons, if_neg hyb]
    · rw [if_neg hk, List.filter_cons]
      by_cases hx : key x = k
      · have hxb : (key x == k) = true := beq_iff_eq.mpr hx
        rw [if_pos hxb, if_pos hx]
      · have hxb : ¬ ((key x == k) = true) := by simpa [beq_iff_eq] using hx
        rw [if_neg hxb, if_neg hx]

/-- The sort is a permutation of its input. -/
theorem sortDescBy_perm (key : α → Nat) (l : List α) : (sortDescBy key l).Perm l := by
  induction l with
  | nil => simp [sortDescBy]
  | cons x xs ih =>
    exact (insertDescBy_perm key x (sortDescBy key xs)).trans (ih.cons x)

/-- The sort output is descending in the key. -/
theorem sortDescBy_pairwise (key : α → Nat) (l : List α) :
    (sortDescBy key l).Pairwise (fun a b => key b ≤ key a) := by
  induction l with
  | nil => simp [sortDescBy]
  | cons x xs ih => exact insertDescBy_pairwise key x _ ih

/-- Stability: restricted to any one key value, the sort output is the
input unchanged, so equal keys keep their input order. -/
theorem sortDescBy_filter_key (key : α → Nat) (l : List α) (k : Nat) :
    (sortDescBy key l).filter (fun z => key z == k)
      = l.filter (fun z => key z == k) := by
  induction l with
  | nil => rfl
  | cons x xs ih =>
    have h1 : sortDescBy key (x :: xs) = insertDescBy key x (sortDescBy key xs) := rfl
    rw [h1, insertDescBy_filter_key, List.filter_cons]
    by_cases h : key x = k
    · have hb : (key x == k) = true := beq_iff_eq.mpr h
      rw [if_pos h, ih, if_pos hb]
    · have hb : ¬ ((key x == k) = true) := by simpa [beq_iff_eq] using h
      rw [if_neg h, ih, if_neg hb]

/-- C1: for every built index, `getAllPosts` is sorted by post date
descending, and restricted to any single date the list equals the parsed
posts in discovery order (stability); it is moreover a permutation of the
parsed posts. -/
theorem claim_C1_getAll_sorted_date_descending_stable (units : List (String × String)) :
    (getAllPosts units).Pairwise (fun a b => dateNum b ≤ dateNum a)
    ∧ (∀ k : Nat, (getAllPosts units).filter (fun p => dateNum p == k)
          = (parsedPosts units).filter (fun p => dateNum p == k))
    ∧ (getAllPosts units).Perm (parsedPosts units) :=
  ⟨sortDescBy_pairwise dateNum (parsedPosts units),
   fun k => sortDescBy_filter_key dateNum (parsedPosts units) k,
   sortDescBy_perm dateNum (parsedPosts units)⟩

/-- C2: a found post carries the requested slug and is in the index; the
not-found signal is returned exactly for absent slugs; the page maps the
signal, and only it, to the not-found page. -/
theorem claim_C2_getBySlug_lookup (units : List (String × String)) (s : String) :
    (∀ p : Post, getPostBySlug units s = some p → p.slug = s ∧ p ∈ getAllPosts units)
    ∧ (getPostBySlug units s = none ↔ ∀ p ∈ getAllPosts units, p.slug ≠ s)
    ∧ (blogPostPage units s = PageResult.notFoundPage ↔ getPostBySlug units s = none) := by
  refine ⟨?_, ?_, ?_⟩
  · intro p hp
    have hp2 : List.find? (fun q => q.slug == s) (getAllPosts units) = some p := hp
    have h1 := List.find?_some hp2
    exact ⟨beq_iff_eq.mp h1, List.mem_of_find?_eq_some hp2⟩
  · constructor
    · intro h p hp hs
      have h2 : List.find? (fun q => q.slug == s) (getAllPosts units) = none := h
      exact (List.find?_eq_none.mp h2 p hp) (beq_iff_eq.mpr hs)
    · intro h
      show List.find? (fun q => q.slug == s) (getAllPosts units) = none
      apply List.find?_eq_none.mpr
      intro p hp hb
      exact h p hp (beq_iff_eq.mp hb)
  · cases hfind : getPostBySlug units s with
    | none => simp [blogPostPage, hfind]
    | some p => simp [blogPostPage, hfind]

/-- C2 witness: an absent slug in a concrete store yields the signal. -/
theorem claim_C2_witness : getPostBySlug demoUnits "missing" = none :=
  (claim_C2_getBySlug_lookup demoUnits "missing").2.1.mpr (by decide)

/-- C3: the category filter is a subsequence of the canonical list in the
same relative order, holds exactly the posts of that category, is empty
for a category matching no post, and agrees with the archive page filter
for every non-sentinel selection. -/
theorem claim_C3_getByCategory_filter (units : List (String × String)) (c : String) :
    (getByCategory units c).Sublist (getAllPosts units)
    ∧ (∀ p : Post, p ∈ getByCategory units c ↔ p ∈ getAllPosts units ∧ p.category = c)
    ∧ ((∀ p ∈ getAllPosts units, p.category ≠ c) → getByCategory units c = [])
    ∧ (c ≠ "all" → filteredPosts (getAllPosts units) c = getByCategory units c) := by
  refine ⟨List.filter_sublist _, ?_, ?_, ?_⟩
  · intro p
    rw [getByCategory, List.mem_filter]
    exact ⟨fun h => ⟨h.1, beq_iff_eq.mp h.2⟩, fun h => ⟨h.1, beq_iff_eq.mpr h.2⟩⟩
  · intro h
    rw [getByCategory]
    apply List.filter_eq_nil_iff.mpr
    intro p hp hb
    exact h p hp (beq_iff_eq.mp hb)
  · intro hc
    rw [filteredPosts, if_neg hc, getByCategory]

/-- C3 witness: a category no concrete post carries filters to empty. -/
theorem claim_C3_witness : getByCategory demoUnits "Nope" = [] :=
  (claim_C3_getByCategory_filter demoUnits "Nope").2.2.1 (by decide)

/-! ## Lemmas for the category count partition -/

/-- Membership is unchanged by first-appearance deduplication. -/
theorem mem_dedupFirst (x : String) (l : List String) : x ∈ dedupFirst l ↔ x ∈ l := by
  induction l with
  | nil => simp [dedupFirst]
  | cons c cs ih =>
    simp only [dedupFirst, List.mem_cons, List.mem_filter]
    by_cases h : x = c
    · simp [h]
    · have hb : (x != c) = true := by simp [bne_iff_ne, h]
      simp [h, hb, ih]

/-- First-appearance deduplication yields distinct entries. -/
theorem nodup_dedupFirst (l : List String) : (dedupFirst l).Nodup := by
  induction l with
  | nil => simp [dedupFirst]
  | cons c cs ih =>
    simp only [dedupFirst]
    refine List.nodup_cons.mpr ⟨?_, List.Nodup.filter _ ih⟩
    intro hmem
    have h2 := (List.mem_filter.mp hmem).2
    simp at h2

/-- A boolean predicate splits a list length into the two filter lengths. -/
theorem length_filter_split (l : List Post) (q : Post → Bool) :
    l.length = (l.filter q).length + (l.filter (fun p => !(q p))).length := by
  induction l with
  | nil => rfl
  | cons p ps ih =>
    rw [List.filter_cons, List.filter_cons]
    cases hq : q p
    · simp [hq]
      omega
    · simp [hq]
      omega

/-- Distinct categories covering every post split the list length into
the per-category counts. -/
theorem sum_category_counts (cats : List String) (posts : List Post)
    (hnd : cats.Nodup) (hcov : ∀ p ∈ posts, p.category ∈ cats) :
    (cats.map (fun c => categoryCount posts c)).sum = posts.length := by
  induction cats generalizing posts with
  | nil =>
    cases posts with
    | nil => rfl
    | cons p ps => exact absurd (hcov p (List.mem_cons_self p ps)) (List.not_mem_nil p.category)
  | cons c cs ih =>
    rcases List.nodup_cons.mp hnd with ⟨hc, hcs⟩
    rw [List.map_cons, List.sum_cons]
    have hrest : (cs.map (fun c2 =>
        categoryCount (posts.filter (fun p => !(p.category == c))) c2)).sum
        = (posts.filter (fun p => !(p.category == c))).length := by
      refine ih _ hcs ?_
      intro p hp
      rcases List.mem_filter.mp hp with ⟨hpp, hnb⟩
      rcases List.mem_cons.mp (hcov p hpp) with h2 | h2
      · exfalso
        rw [h2] at hnb
        simp at hnb
      · exact h2
    have hmap : cs.map (fun c2 => categoryCount posts c2)
        = cs.map (fun c2 => categoryCount (posts.filter (fun p => !(p.category == c))) c2) := by
      apply List.map_congr_left
      intro c2 hc2
      have hne : c2 ≠ c := fun e => hc (e ▸ hc2)
      unfold categoryCount
      rw [List.filter_filter]
      congr 1
      apply List.filter_congr
      intro p hp
      cases hpc : (p.category == c2)
      · simp
      · have hpcc : (p.category == c) = false := by
          have h3 : p.category = c2 := beq_iff_eq.mp hpc
          simp [beq_iff_eq, h3, hne]
        simp [hpcc]
    rw [hmap, hrest]
    exact (length_filter_split posts (fun p => p.category == c)).symm

/-- C4: the per-category counts of the archive buttons, summed over all
categories, equal the length of the canonical post list, since every
post carries a category (with the Uncategorized default). -/
theorem claim_C4_counts_sum_to_total (units : List (String × String)) :
    ((getAllCategories units).map (fun c => categoryCount (getAllPosts units) c)).sum
      = (getAllPosts units).length := by
  apply sum_category_counts
  · exact nodup_dedupFirst _
  · intro p hp
    rw [getAllCategories, mem_dedupFirst]
    exact List.mem_map_of_mem _ hp

/-- C5: the round-trip unit with title T, date 2025-01-01, readTime
5 min read, category X and body Hello parses into a post with exactly
those field values and the body trimmed to Hello. -/
theorem claim_C5_round_trip :
    parseUnit "unit" c5raw =
      some { slug := "unit", title := "T", date := "2025-01-01",
             readTime := "5 min read", category := "X", content := "Hello" } := by
  decide

/-! ## Lemmas for unit-scoped parse failure -/

/-- Field validation fails when the title is missing or the date is
missing or unparseable. -/
theorem parseFields_eq_none (meta : List (String × String)) (slug body : String)
    (h : meta.lookup "title" = none ∨ meta.lookup "date" = none
        ∨ ∀ d, meta.lookup "date" = some d → parseDate d = none) :
    parseFields meta slug body = none := by
  cases ht : meta.lookup "title" with
  | none => simp [parseFields, ht]
  | some title =>
    cases hd : meta.lookup "date" with
    | none => simp [parseFields, ht, hd]
    | some date =>
      rcases h with h | h | h
      · rw [ht] at h
        cases h
      · rw [hd] at h
        cases h
      · have hpd := h date hd
        by_cases hti : title = ""
        · simp [parseFields, ht, hd, hti]
        · simp [parseFields, ht, hd, hti, hpd]

/-- A unit that fails to parse is dropped from the discovery-order list,
leaving the other units exactly as they were. -/
theorem parsedPosts_skip (slug raw : String) (l1 l2 : List (String × String))
    (h : parseUnit slug raw = none) :
    parsedPosts (l1 ++ (slug, raw) :: l2) = parsedPosts (l1 ++ l2) := by
  rw [parsedPosts, parsedPosts, List.filterMap_append, List.filterMap_append,
    List.filterMap_cons]
  simp [h]

/-- C6: a content unit whose metadata lacks the title field, lacks the
date field, or carries an unparseable date is a hard failure scoped to
that unit: it parses to the failure signal and, wherever it sits in the
scan, the index and every query are exactly those of the scan without it,
so all other units are still indexed. -/
theorem claim_C6_invalid_unit_excluded
    (slug raw : String) (l1 l2 : List (String × String))
    (h : (metaOf raw).lookup "title" = none
        ∨ (metaOf raw).lookup "date" = none
        ∨ ∀ d, (metaOf raw).lookup "date" = some d → parseDate d = none) :
    parseUnit slug raw = none
    ∧ getAllPosts (l1 ++ (slug, raw) :: l2) = getAllPosts (l1 ++ l2)
    ∧ (∀ s, getPostBySlug (l1 ++ (slug, raw) :: l2) s = getPostBySlug (l1 ++ l2) s)
    ∧ (∀ c, getByCategory (l1 ++ (slug, raw) :: l2) c = getByCategory (l1 ++ l2) c) := by
  have hnone : parseUnit slug raw = none := by
    cases hsf : splitFrontmatter raw with
    | none => simp [parseUnit, hsf]
    | some mb =>
      obtain ⟨meta, body⟩ := mb
      have hmeta : metaOf raw = meta := by rw [metaOf, hsf]
      rw [hmeta] at h
      simp only [parseUnit, hsf]
      exact parseFields_eq_none meta slug body h
  have hall : getAllPosts (l1 ++ (slug, raw) :: l2) = getAllPosts (l1 ++ l2) := by
    rw [getAllPosts, getAllPosts, parsedPosts_skip slug raw l1 l2 hnone]
  refine ⟨hnone, hall, ?_, ?_⟩
  · intro s
    rw [getPostBySlug, getPostBySlug, hall]
  · intro c
    rw [getByCategory, getByCategory, hall]

/-- C6 witness: a concrete unit with no title is excluded, and the index
of a scan containing it is the index of the scan without it. -/
theorem claim_C6_witness :
    parseUnit "bad" demoBadRaw = none
    ∧ getAllPosts [demoUnitA, ("bad", demoBadRaw)] = getAllPosts [demoUnitA] :=
  ⟨(claim_C6_invalid_unit_excluded "bad" demoBadRaw [demoUnitA] [] (Or.inl (by decide))).1,
   (claim_C6_invalid_unit_excluded "bad" demoBadRaw [demoUnitA] [] (Or.inl (by decide))).2.1⟩

/-- C7: an inline code span renders as a bare styled code element while a
fenced block renders as a pre-wrapped code element, two different markup
node types; the node type depends only on the syntactic classification,
never on the code content. -/
theorem claim_C7_code_span_vs_fenced_block (c1 c2 lang b1 b2 : String) :
    markupCtor (renderCode (CodeSyntax.inlineSpan c1)) = MarkupCtor.codeC
    ∧ markupCtor (renderCode (CodeSyntax.fenced lang b1)) = MarkupCtor.preC
    ∧ markupCtor (renderCode (CodeSyntax.inlineSpan c1))
        = markupCtor (renderCode (CodeSyntax.inlineSpan c2))
    ∧ markupCtor (renderCode (CodeSyntax.fenced lang b1))
        = markupCtor (renderCode (CodeSyntax.fenced lang b2))
    ∧ markupCtor (renderCode (CodeSyntax.inlineSpan c1))
        ≠ markupCtor (renderCode (CodeSyntax.fenced lang b1)) := by
  refine ⟨rfl, rfl, rfl, rfl, ?_⟩
  intro h
  exact MarkupCtor.noConfusion h

/-- C7 witness: a concrete span renders as a bare code element. -/
theorem claim_C7_witness :
    markupCtor (renderCode (CodeSyntax.inlineSpan "x")) = MarkupCtor.codeC :=
  (claim_C7_code_span_vs_fenced_block "x" "y" "js" "x" "y").1

/-- C8: the anchor override grants the new-context attributes, target
blank and rel noopener noreferrer, exactly when the destination begins
with http; any other destination gets neither attribute. -/
theorem claim_C8_external_link_attributes (href : Option String) (label : String) :
    ((anchorTarget (aComponent href label) = some "_blank"
        ∧ anchorRel (aComponent href label) = some "noopener noreferrer")
      ↔ hrefStartsWithHttp href = true)
    ∧ (hrefStartsWithHttp href = false →
        anchorTarget (aComponent href label) = none
        ∧ anchorRel (aComponent href label) = none) := by
  cases hh : hrefStartsWithHttp href <;>
    simp [aComponent, anchorTarget, anchorRel, hh]

/-- C8 witness: a concrete absolute destination gets target blank. -/
theorem claim_C8_witness :
    anchorTarget (aComponent (some "https://example.com") "x") = some "_blank" :=
  ((claim_C8_external_link_attributes (some "https://example.com") "x").1.mpr
    (by decide)).1

/-- C9: determinism: two builds from the same content units have
identical slug lists, identical post ordering, identical per-category
counts and identical category lists, and rendering the same code syntax
twice produces identical markup; the pipeline is a pure function of its
input. -/
theorem claim_C9_rebuild_determinism (u1 u2 : List (String × String)) (h : u1 = u2) :
    (getAllPosts u1).map (fun p => p.slug) = (getAllPosts u2).map (fun p => p.slug)
    ∧ getAllPosts u1 = getAllPosts u2
    ∧ (∀ c, categoryCount (getAllPosts u1) c = categoryCount (getAllPosts u2) c)
    ∧ getAllCategories u1 = getAllCategories u2
    ∧ (∀ cs : CodeSyntax, renderCode cs = renderCode cs) := by
  subst h
  exact ⟨rfl, rfl, fun c => rfl, rfl, fun cs => rfl⟩

/-- C9 witness: the concrete store rebuilds to the same index. -/
theorem claim_C9_witness : getAllPosts demoUnits = getAllPosts demoUnits :=
  (claim_C9_rebuild_determinism demoUnits demoUnits rfl).2.1

/-! ## Lemmas for the archive year grouping -/

/-- Updating the bucket of key `y` appends to a lookup of `y` and
changes no other lookup. -/
theorem lookupGroup_addToGroup (y : Nat) (p : Post) (z : Nat)
    (acc : List (Nat × List Post)) :
    lookupGroup (addToGroup y p acc) z =
      lookupGroup acc z ++ (if y = z then [p] else []) := by
  induction acc with
  | nil =>
    by_cases h : y = z
    · have hb : (y == z) = true := beq_iff_eq.mpr h
      simp [addToGroup, lookupGroup, hb, h]
    · have hb : (y == z) = false := by simp [h]
      simp [addToGroup, lookupGroup, hb, h]
  | cons g gs ih =>
    by_cases hg : (g.1 == y) = true
    · have h1 : g.1 = y := beq_iff_eq.mp hg
      rw [addToGroup, if_pos hg]
      by_cases hz : (g.1 == z) = true
      · have hyz : y = z := by rw [← h1]; exact beq_iff_eq.mp hz
        simp [lookupGroup, hz, hyz]
      · have hyz : ¬ y = z := fun e => hz (beq_iff_eq.mpr (by rw [h1]; exact e))
        simp [lookupGroup, hz, hyz]
    · rw [addToGroup, if_neg hg]
      by_cases hz : (g.1 == z) = true
      · have h2 : g.1 = z := beq_iff_eq.mp hz
        have hyz : ¬ y = z := fun e => hg (beq_iff_eq.mpr (by rw [h2, ← e]))
        simp [lookupGroup, hz, hyz]
      · simp [lookupGroup, hz, ih]

/-- One grouping step appends the post to the bucket of its year and
changes no other bucket. -/
theorem lookupGroup_pushByYear (acc : List (Nat × List Post)) (p : Post) (y : Nat) :
    lookupGroup (pushByYear acc p) y =
      lookupGroup acc y ++ (if postYear p = y then [p] else []) :=
  lookupGroup_addToGroup (postYear p) p y acc

/-- Folding the grouping over the posts appends, bucket by bucket, the
year-filtered posts in input order. -/
theorem lookupGroup_foldl (l : List Post) (acc : List (Nat × List Post)) (y : Nat) :
    lookupGroup (l.foldl pushByYear acc) y
      = lookupGroup acc y ++ l.filter (fun p => postYear p == y) := by
  induction l generalizing acc with
  | nil => simp
  | cons p ps ih =>
    rw [List.foldl_cons, ih, lookupGroup_pushByYear, List.filter_cons]
    by_cases h : postYear p = y
    · have hb : (postYear p == y) = true := beq_iff_eq.mpr h
      rw [if_pos h, if_pos hb]
      simp
    · have hb : ¬ ((postYear p == y) = true) := by simp [h]
      rw [if_neg h, if_neg hb]
      simp

/-- Each year bucket of the archive grouping is exactly the year-filtered
post list in input order. -/
theorem lookupGroup_postsByYear (posts : List Post) (y : Nat) :
    lookupGroup (postsByYear posts) y = posts.filter (fun p => postYear p == y) := by
  rw [postsByYear, lookupGroup_foldl]
  simp [lookupGroup]

/-- Bucket update reaches exactly the old keys plus the updated key. -/
theorem mem_groupKeys_addToGroup (y : Nat) (p : Post) (z : Nat)
    (acc : List (Nat × List Post)) :
    z ∈ groupKeys (addToGroup y p acc) ↔ z ∈ groupKeys acc ∨ z = y := by
  induction acc with
  | nil => simp [addToGroup, groupKeys]
  | cons g gs ih =>
    by_cases hg : (g.1 == y) = true
    · have h1 : g.1 = y := beq_iff_eq.mp hg
      rw [addToGroup, if_pos hg]
      simp only [groupKeys, List.map_cons, List.mem_cons]
      rw [h1]
      tauto
    · rw [addToGroup, if_neg hg]
      simp only [groupKeys, List.map_cons, List.mem_cons] at ih ⊢
      rw [ih]
      tauto

/-- Bucket update never duplicates a key. -/
theorem nodup_groupKeys_addToGroup (y : Nat) (p : Post)
    (acc : List (Nat × List Post)) (h : (groupKeys acc).Nodup) :
    (groupKeys (addToGroup y p acc)).Nodup := by
  induction acc with
  | nil => simp [addToGroup, groupKeys]
  | cons g gs ih =>
    simp only [groupKeys, List.map_cons, List.nodup_cons] at h
    by_cases hg : (g.1 == y) = true
    · rw [addToGroup, if_pos hg]
      simp only [groupKeys, List.map_cons, List.nodup_cons]
      exact h
    · rw [addToGroup, if_neg hg]
      simp only [groupKeys, List.map_cons, List.nodup_cons]
      refine ⟨?_, ih h.2⟩
      intro hmem
      have hmem2 : g.1 ∈ groupKeys (addToGroup y p gs) := hmem
      rw [mem_groupKeys_addToGroup] at hmem2
      rcases hmem2 with hmem2 | hmem2
      · exact h.1 hmem2
      · exact hg (beq_iff_eq.mpr hmem2)

/-- The grouping keys are the years seen in the accumulator or the list. -/
theorem mem_groupKeys_foldl (l : List Post) (acc : List (Nat × List Post)) (y : Nat) :
    y ∈ groupKeys (l.foldl pushByYear acc)
      ↔ y ∈ groupKeys acc ∨ y ∈ l.map postYear := by
  induction l generalizing acc with
  | nil => simp
  | cons p ps ih =>
    rw [List.foldl_cons, ih]
    rw [pushByYear] at *
    rw [mem_groupKeys_addToGroup]
    simp only [List.map_cons, List.mem_cons]
    tauto

/-- The grouping never repeats a year key. -/
theorem nodup_groupKeys_foldl (l : List Post) (acc : List (Nat × List Post))
    (h : (groupKeys acc).Nodup) : (groupKeys (l.foldl pushByYear acc)).Nodup := by
  induction l generalizing acc with
  | nil => exact h
  | cons p ps ih =>
    rw [List.foldl_cons]
    exact ih _ (nodup_groupKeys_addToGroup (postYear p) p acc h)

/-- The keys of the archive grouping are distinct. -/
theorem nodup_groupKeys (posts : List Post) : (groupKeys (postsByYear posts)).Nodup :=
  nodup_groupKeys_foldl posts [] (by simp [groupKeys])

/-- The year headings are strictly descending. -/
theorem yearsOf_strict_desc (posts : List Post) :
    (yearsOf posts).Pairwise (fun a b => b < a) := by
  have hp := sortDescBy_pairwise (fun y => y) (groupKeys (postsByYear posts))
  have hperm := sortDescBy_perm (fun y => y) (groupKeys (postsByYear posts))
  have hnd : (yearsOf posts).Nodup := hperm.symm.nodup (nodup_groupKeys posts)
  have hand := List.Pairwise.and hp hnd
  exact hand.imp (fun hab => lt_of_le_of_ne hab.1 (fun e => hab.2 e.symm))

/-- C10: the archive page places each post in the bucket of the calendar
year of its date, the buckets are exactly the year-filtered sublists in
input order (so they partition the filtered list), and the year headings
are displayed in strictly descending numeric order with every post year
among them. -/
theorem claim_C10_archive_year_grouping (posts : List Post) :
    (∀ y, lookupGroup (postsByYear posts) y = posts.filter (fun p => postYear p == y))
    ∧ (yearsOf posts).Pairwise (fun a b => a > b)
    ∧ (∀ p ∈ posts, postYear p ∈ yearsOf posts) := by
  refine ⟨lookupGroup_postsByYear posts, yearsOf_strict_desc posts, ?_⟩
  intro p hp
  have h1 : postYear p ∈ groupKeys (postsByYear posts) := by
    rw [postsByYear]
    exact (mem_groupKeys_foldl posts [] (postYear p)).mpr
      (Or.inr (List.mem_map_of_mem _ hp))
  exact ((sortDescBy_perm (fun y => y) _).mem_iff).mpr h1

/-- C10 witness: a concrete post appears under its own year heading. -/
theorem claim_C10_witness : postYear demoPostA ∈ yearsOf [demoPostA] :=
  (claim_C10_archive_year_grouping [demoPostA]).2.2 demoPostA (by decide)

end Blog
